import Mathlib

/-!
Verification of the multi-table BadgerDB example: a shallow embedding of the
identifier allocator, the generic record store, and the five join/aggregation
operations from `go-baderdb-multi-table-ex/main.go`, together with proofs of
the specified properties.

Modelling choices:
* `float64` amounts and prices are modelled as `Rat` (exact arithmetic).
* The key-value store is an association list `List (String × Val)` with
  unique keys maintained by `storeSet`; Badger's ordered iteration is
  modelled by sorting the matching keys lexicographically (`String`'s
  linear order, which is bytewise on ASCII keys like the ones used here).
* JSON (de)serialization is modelled by the tagged union `Val` and decoder
  functions: decoding a value of the wrong shape fails.
* `time.Time` creation timestamps are omitted: no claim concerns them.
* `db.Update` in `getNextID` can fail in Go; the `writeFails : Bool`
  parameter models whether that transaction fails.  The Go function ignores
  the returned error, which the embedding mirrors faithfully.
-/

namespace BadgerEx

/-- `User` record (main.go lines 15-21, timestamp omitted). -/
structure User where
  id : Int
  name : String
  email : String
  companyID : Int
deriving DecidableEq, Repr

/-- `Company` record (main.go lines 24-29, timestamp omitted). -/
structure Company where
  id : Int
  name : String
  industry : String
deriving DecidableEq, Repr

/-- `Order` record (main.go lines 32-40, timestamp omitted). -/
structure Order where
  id : Int
  userID : Int
  productID : Int
  quantity : Int
  amount : Rat
  status : String
deriving DecidableEq, Repr

/-- `Product` record (main.go lines 43-50). -/
structure Product where
  id : Int
  name : String
  price : Rat
  categoryID : Int
  companyID : Int
  description : String
deriving DecidableEq, Repr

/-- `Category` record (main.go lines 53-56). -/
structure Category where
  id : Int
  name : String
deriving DecidableEq, Repr

/-- A serialized payload stored under a key: one of the five record shapes,
or a persisted counter integer. -/
inductive Val where
  | user : User → Val
  | company : Company → Val
  | order : Order → Val
  | product : Product → Val
  | category : Category → Val
  | counter : Int → Val
deriving DecidableEq, Repr

/-- The key-value store: an association list with (by construction) unique
string keys. -/
abbrev Store := List (String × Val)

/-- Point lookup by key (`txn.Get`). -/
def storeGet (st : Store) (k : String) : Option Val :=
  (st.find? (fun p => p.1 == k)).map (fun p => p.2)

/-- Point write by key (`txn.Set`): overwrites an existing binding in place,
otherwise appends. -/
def storeSet : Store → String → Val → Store
  | [], k, v => [(k, v)]
  | p :: rest, k, v => if p.1 = k then (k, v) :: rest else p :: storeSet rest k v

/-- Key of an entity record: `fmt.Sprintf("%s:%d", entity, id)`
(main.go line 151). -/
def entityKey (entity : String) (id : Int) : String :=
  entity ++ ":" ++ toString id

/-- Key of a persisted counter: `fmt.Sprintf("counter:%s", entity)`
(main.go lines 110 and 135). -/
def counterKey (entity : String) : String :=
  "counter:" ++ entity

/-- The scan boundary used by `list`: `fmt.Sprintf("%s:", entity)`
(main.go line 177). -/
def kindPfx (entity : String) : String :=
  entity ++ ":"

/-- Character-list test that the first list starts the second. -/
def listHasPfx : List Char → List Char → Bool
  | [], _ => true
  | _ :: _, [] => false
  | a :: as, b :: bs => a == b && listHasPfx as bs

/-- String test that `p` starts `s`, used to model `it.ValidForPrefix`. -/
def strHasPfx (p s : String) : Bool :=
  listHasPfx p.data s.data

/-- Errors surfaced by the record store. -/
inductive DBErr where
  | notFound
  | decodeErr
deriving DecidableEq, Repr

/-- `get` (main.go lines 156-168): point lookup of one entity record, then
decode.  A missing key is `notFound`; a payload of the wrong shape is
`decodeErr`. -/
def getEnt {α : Type} (dec : Val → Option α) (entity : String) (id : Int)
    (st : Store) : Except DBErr α :=
  match storeGet st (entityKey entity id) with
  | none => .error .notFound
  | some v =>
    match dec v with
    | some a => .ok a
    | none => .error .decodeErr

/-- Lexicographic comparison of character lists (by code point, which is
raw-byte order on the ASCII keys this program builds). -/
def listLeC : List Char → List Char → Bool
  | [], _ => true
  | _ :: _, [] => false
  | a :: as, b :: bs => if a = b then listLeC as bs else decide (a < b)

theorem listLeC_total : ∀ l1 l2 : List Char,
    listLeC l1 l2 = true ∨ listLeC l2 l1 = true
  | [], _ => Or.inl rfl
  | _ :: _, [] => Or.inr rfl
  | a :: as, b :: bs => by
    by_cases h : a = b
    · subst h
      simpa [listLeC] using listLeC_total as bs
    · rcases lt_or_gt_of_ne h with hlt | hgt
      · left
        simp [listLeC, h, hlt]
      · right
        simp [listLeC, Ne.symm h, hgt]

theorem listLeC_trans : ∀ l1 l2 l3 : List Char,
    listLeC l1 l2 = true → listLeC l2 l3 = true → listLeC l1 l3 = true
  | [], _, _, _, _ => rfl
  | _ :: _, [], _, h, _ => by simp [listLeC] at h
  | _ :: _, _ :: _, [], _, h2 => by simp [listLeC] at h2
  | a :: as, b :: bs, c :: cs, h1, h2 => by
    by_cases hab : a = b <;> by_cases hbc : b = c
    · subst hab; subst hbc
      simp only [listLeC, if_pos rfl] at h1 h2 ⊢
      exact listLeC_trans as bs cs h1 h2
    · subst hab
      simpa [listLeC, hbc] using h2
    · subst hbc
      simpa [listLeC, hab] using h1
    · simp only [listLeC, if_neg hab, decide_eq_true_eq] at h1
      simp only [listLeC, if_neg hbc, decide_eq_true_eq] at h2
      have hac : a < c := lt_trans h1 h2
      simp [listLeC, ne_of_lt hac, hac]

/-- Ordering of scanned pairs by key, lexicographically: Badger iterates
keys in ascending raw-byte order. -/
def keyLe (a b : String × Val) : Prop :=
  listLeC a.1.data b.1.data = true

instance : DecidableRel keyLe :=
  fun a b => inferInstanceAs (Decidable (_ = true))

instance : IsTotal (String × Val) keyLe :=
  ⟨fun a b => listLeC_total a.1.data b.1.data⟩

instance : IsTrans (String × Val) keyLe :=
  ⟨fun a b c h1 h2 => listLeC_trans a.1.data b.1.data c.1.data h1 h2⟩

/-- The pairs visited by `list`'s iterator for one entity kind: all bindings
whose key carries the kind's scan boundary, in ascending key order
(main.go line 180). -/
def scanPfx (entity : String) (st : Store) : List (String × Val) :=
  List.insertionSort keyLe (st.filter (fun p => strHasPfx (kindPfx entity) p.1))

/-- Decode every scanned value in scan order; any single failure fails the
whole batch (modelling `json.Unmarshal` of the collected array). -/
def decodeAll {α : Type} (dec : Val → Option α) :
    List (String × Val) → Option (List α)
  | [] => some []
  | p :: rest =>
    match dec p.2, decodeAll dec rest with
    | some a, some as => some (a :: as)
    | _, _ => none

/-- `list` (main.go lines 170-199): scan all keys with the kind's boundary in
key order and decode each value; one bad payload fails the whole listing. -/
def listEnt {α : Type} (dec : Val → Option α) (entity : String)
    (st : Store) : Except DBErr (List α) :=
  match decodeAll dec (scanPfx entity st) with
  | some xs => .ok xs
  | none => .error .decodeErr

/-- `create` (main.go lines 144-154): serialize and write under the entity
key. -/
def create (entity : String) (id : Int) (v : Val) (st : Store) : Store :=
  storeSet st (entityKey entity id) v

def decUser : Val → Option User
  | .user u => some u
  | _ => none

def decCompany : Val → Option Company
  | .company c => some c
  | _ => none

def decOrder : Val → Option Order
  | .order o => some o
  | _ => none

def decProduct : Val → Option Product
  | .product p => some p
  | _ => none

def decCategory : Val → Option Category
  | .category c => some c
  | _ => none

def decCounter : Val → Option Int
  | .counter n => some n
  | _ => none

/-- The five entity kinds (main.go line 106). -/
def entities : List String :=
  ["users", "companies", "orders", "products", "categories"]

/-- The in-memory service state: the counter map plus the open store
(main.go lines 79-83; the mutex is not modelled, operations are sequential). -/
structure SvcState where
  counters : String → Int
  db : Store

/-- `initCounters` (main.go lines 105-125): seed each known kind's counter
from its persisted record, falling back to 0 when the key is absent or the
payload does not decode.  Kinds outside the fixed list stay at Go's map
zero value 0. -/
def initCounters (db : Store) : String → Int := fun e =>
  if e ∈ entities then
    match storeGet db (counterKey e) with
    | some (.counter n) => n
    | _ => 0
  else 0

/-- `NewBadgerService` (main.go lines 85-103) over an already-open store. -/
def newService (db : Store) : SvcState :=
  ⟨initCounters db, db⟩

/-- `getNextID` (main.go lines 127-141): increment the in-memory counter,
persist the new value, return it.  `writeFails` models the persisting
transaction failing; the Go code discards `db.Update`'s error, so the
returned value and the in-memory counter are the same either way. -/
def getNextID (writeFails : Bool) (s : SvcState) (entity : String) :
    Int × SvcState :=
  let n := s.counters entity + 1
  let cs : String → Int := fun e => if e = entity then n else s.counters e
  let db := if writeFails then s.db
            else storeSet s.db (counterKey entity) (.counter n)
  (n, ⟨cs, db⟩)

/-- Joined row of `GetUsersWithCompanies` (main.go lines 59-62). -/
structure UserWithCompany where
  user : User
  company : Company
deriving DecidableEq, Repr

/-- Joined row of the order-detail queries (main.go lines 64-69). -/
structure OrderWithDetails where
  order : Order
  user : User
  product : Product
  category : Category
deriving DecidableEq, Repr

/-- Aggregate row of `GetCompanyStats` (main.go lines 71-76). -/
structure CompanyStats where
  company : Company
  userCount : Nat
  orderCount : Nat
  totalRevenue : Rat
deriving DecidableEq, Repr

/-- Per-product aggregate of `GetTopSellingProductsByCategory`
(main.go lines 403-407). -/
structure ProductSellStat where
  product : Product
  totalOrders : Nat
  totalRevenue : Rat
deriving DecidableEq, Repr

/-- One iteration of the `GetUsersWithCompanies` loop (main.go lines
242-253): append the joined row, or keep the accumulator when the company
lookup fails. -/
def uwcStep (st : Store) (acc : List UserWithCompany) (u : User) :
    List UserWithCompany :=
  match getEnt decCompany "companies" u.companyID st with
  | .error _ => acc
  | .ok c => acc ++ [⟨u, c⟩]

/-- `GetUsersWithCompanies` (main.go lines 233-256): list users, look each
user's company up, skip the user when the lookup fails.  The second
component is the store as left behind by the operation. -/
def GetUsersWithCompanies (st : Store) :
    Except DBErr (List UserWithCompany) × Store :=
  match listEnt decUser "users" st with
  | .error e => (.error e, st)
  | .ok users => (.ok (users.foldl (uwcStep st) []), st)

/-- `GetOrdersWithDetails` (main.go lines 259-297): list orders; resolve
user, product, then the product's category; skip the order when any hop
fails. -/
def GetOrdersWithDetails (st : Store) :
    Except DBErr (List OrderWithDetails) × Store :=
  match listEnt decOrder "orders" st with
  | .error e => (.error e, st)
  | .ok orders =>
    (.ok (orders.foldl (fun acc o =>
      match getEnt decUser "users" o.userID st with
      | .error _ => acc
      | .ok u =>
        match getEnt decProduct "products" o.productID st with
        | .error _ => acc
        | .ok p =>
          match getEnt decCategory "categories" p.categoryID st with
          | .error _ => acc
          | .ok c => acc ++ [⟨o, u, p, c⟩]) []), st)

/-- The `usersByCompany` grouping map of `GetCompanyStats`
(main.go lines 320-323), as a function from company id to its users in
listing order. -/
def usersByCompanyFold (users : List User) : Int → List User :=
  users.foldl (fun m u =>
    fun cid => if cid = u.companyID then m cid ++ [u] else m cid)
    (fun _ => [])

/-- The `ordersByCompany` grouping map of `GetCompanyStats`
(main.go lines 326-334): each order goes to the company of the first listed
user whose id matches the order's user id; orders with no such user are
dropped. -/
def ordersByCompanyFold (users : List User) (orders : List Order) :
    Int → List Order :=
  orders.foldl (fun m o =>
    match users.find? (fun u => u.id == o.userID) with
    | some u => fun cid => if cid = u.companyID then m cid ++ [o] else m cid
    | none => m)
    (fun _ => [])

/-- The revenue accumulation loop of `GetCompanyStats`
(main.go lines 347-349). -/
def revenueFold (l : List Order) : Rat :=
  l.foldl (fun r o => r + o.amount) 0

/-- `GetCompanyStats` (main.go lines 300-355): list companies, users and
orders; group users by company; attribute each order to the company of the
first listed user carrying the order's user id; emit counts and the revenue
sum per company. -/
def GetCompanyStats (st : Store) : Except DBErr (List CompanyStats) × Store :=
  match listEnt decCompany "companies" st with
  | .error e => (.error e, st)
  | .ok companies =>
  match listEnt decUser "users" st with
  | .error e => (.error e, st)
  | .ok users =>
  match listEnt decOrder "orders" st with
  | .error e => (.error e, st)
  | .ok orders =>
    (.ok (companies.map (fun c =>
      { company := c
        userCount := (usersByCompanyFold users c.id).length
        orderCount := (ordersByCompanyFold users orders c.id).length
        totalRevenue := revenueFold (ordersByCompanyFold users orders c.id) })),
     st)

/-- One iteration of the `GetUserOrdersWithProducts` loop (main.go lines
373-397): other users' orders are passed over, the user's own orders are
joined with product and category, dropped when either lookup fails. -/
def uowpStep (st : Store) (userID : Int) (user : User)
    (acc : List OrderWithDetails) (o : Order) : List OrderWithDetails :=
  if o.userID = userID then
    match getEnt decProduct "products" o.productID st with
    | .error _ => acc
    | .ok p =>
      match getEnt decCategory "categories" p.categoryID st with
      | .error _ => acc
      | .ok c => acc ++ [⟨o, user, p, c⟩]
  else acc

/-- `GetUserOrdersWithProducts` (main.go lines 358-400): list orders,
resolve the root user (a hard failure when absent), keep only the user's
orders, resolving product and category with the tolerant drop-on-miss
policy. -/
def GetUserOrdersWithProducts (userID : Int) (st : Store) :
    Except DBErr (List OrderWithDetails) × Store :=
  match listEnt decOrder "orders" st with
  | .error e => (.error e, st)
  | .ok orders =>
  match getEnt decUser "users" userID st with
  | .error e => (.error e, st)
  | .ok user => (.ok (orders.foldl (uowpStep st userID user) []), st)

/-- A Go `map` keyed by identifier, built by insertion in listing order:
later bindings shadow earlier ones. -/
def lookupFold {α : Type} (keyOf : α → Int) (l : List α) : Int → Option α :=
  l.foldl (fun m x => fun i => if i = keyOf x then some x else m i)
    (fun _ => none)

/-- Lookup in the per-product accumulator with Go's zero-value default
(the product field is overwritten before use, mirroring
`stats.Product = product`). -/
def statLookup (l : List (Int × ProductSellStat)) (k : Int) : ProductSellStat :=
  match l.find? (fun p => p.1 == k) with
  | some p => p.2
  | none => ⟨⟨0, "", 0, 0, 0, ""⟩, 0, 0⟩

/-- Write-back into the per-product accumulator: replace in place when the
key exists, else append (first-insertion order is preserved, one of the
iteration orders the Go map may exhibit). -/
def statInsert : List (Int × ProductSellStat) → Int → ProductSellStat →
    List (Int × ProductSellStat)
  | [], k, s => [(k, s)]
  | p :: rest, k, s =>
    if p.1 = k then (k, s) :: rest else p :: statInsert rest k s

/-- One iteration of the per-product accumulation loop of
`GetTopSellingProductsByCategory` (main.go lines 444-455): orders whose
product is absent from the product map are skipped; otherwise the product's
order count and revenue grow. -/
def accumStep (productMap : Int → Option Product)
    (ps : List (Int × ProductSellStat)) (o : Order) :
    List (Int × ProductSellStat) :=
  match productMap o.productID with
  | none => ps
  | some p =>
    let s := statLookup ps p.id
    statInsert ps p.id ⟨p, s.totalOrders + 1, s.totalRevenue + o.amount⟩

/-- The whole per-product accumulation over the listed orders. -/
def accumStats (productMap : Int → Option Product) (orders : List Order) :
    List (Int × ProductSellStat) :=
  orders.foldl (accumStep productMap) []

/-- The group key of one accumulated product entry: the resolved category's
name, or `""` (Go's zero-value `Category`) when the category id is absent
from the category map (main.go lines 465-466). -/
def catNameOf (categoryMap : Int → Option Category) (s : ProductSellStat) :
    String :=
  match categoryMap s.product.categoryID with
  | some c => c.name
  | none => ""

/-- One iteration of the grouping loop of `GetTopSellingProductsByCategory`
(main.go lines 464-477): append the entry under its category-name group
key. -/
def groupStep (categoryMap : Int → Option Category)
    (m : String → List ProductSellStat) (p : Int × ProductSellStat) :
    String → List ProductSellStat :=
  fun g => if g = catNameOf categoryMap p.2 then m g ++ [p.2] else m g

/-- The grouping loop over all accumulated entries, as a map from category
name to its entries in accumulation order. -/
def groupStats (categoryMap : Int → Option Category)
    (ps : List (Int × ProductSellStat)) : String → List ProductSellStat :=
  ps.foldl (groupStep categoryMap) (fun _ => [])

/-- Descending-revenue order used by the per-category sort
(main.go lines 480-484). -/
def revGe (a b : ProductSellStat) : Prop :=
  b.totalRevenue ≤ a.totalRevenue

instance : DecidableRel revGe :=
  fun a b => inferInstanceAs (Decidable (b.totalRevenue ≤ a.totalRevenue))

instance : IsTotal ProductSellStat revGe :=
  ⟨fun a b => le_total b.totalRevenue a.totalRevenue⟩

instance : IsTrans ProductSellStat revGe :=
  ⟨fun _ _ _ h1 h2 => le_trans h2 h1⟩

/-- `GetTopSellingProductsByCategory` (main.go lines 403-487): accumulate
per-product stats over orders, group them by category name, sort each group
by descending revenue.  The result is the grouping map. -/
def GetTopSellingProductsByCategory (st : Store) :
    Except DBErr (String → List ProductSellStat) × Store :=
  match listEnt decOrder "orders" st with
  | .error e => (.error e, st)
  | .ok orders =>
  match listEnt decProduct "products" st with
  | .error e => (.error e, st)
  | .ok products =>
  match listEnt decCategory "categories" st with
  | .error e => (.error e, st)
  | .ok categories =>
    let productMap := lookupFold Product.id products
    let categoryMap := lookupFold Category.id categories
    let pstats := accumStats productMap orders
    let grouped := groupStats categoryMap pstats
    (.ok (fun g => List.insertionSort revGe (grouped g)), st)

/-- N allocations for one entity kind, each preceded by an arbitrary
mutation of the persisted records only (covering creates and deletes of
entity records between allocations); returns the allocated identifiers in
call order. -/
def runAllocs (entity : String) : List (Store → Store) → SvcState → List Int
  | [], _ => []
  | m :: ms, s =>
    let s1 : SvcState := ⟨s.counters, m s.db⟩
    let r := getNextID false s1 entity
    r.1 :: runAllocs entity ms r.2

/-! Specification-side definitions, written from the spec's words, to be
compared with the operational definitions above. -/

/-- Spec view of one Users-with-Companies row: the user paired with its
resolved company, or nothing when the lookup fails. -/
def joinCompany (st : Store) (u : User) : Option UserWithCompany :=
  match getEnt decCompany "companies" u.companyID st with
  | .ok c => some ⟨u, c⟩
  | .error _ => none

/-- Spec view of one row of the filtered join: nothing for another user's
order or when a lookup fails, otherwise the fully joined row carrying the
resolved root user. -/
def joinUserOrder (st : Store) (userID : Int) (user : User) (o : Order) :
    Option OrderWithDetails :=
  if o.userID = userID then
    match getEnt decProduct "products" o.productID st with
    | .error _ => none
    | .ok p =>
      match getEnt decCategory "categories" p.categoryID st with
      | .error _ => none
      | .ok c => some ⟨o, user, p, c⟩
  else none

/-- Spec view: the users referencing a given company, in listing order. -/
def companyUsers (users : List User) (cid : Int) : List User :=
  users.filter (fun u => u.companyID == cid)

/-- Spec view: the owning user of an order — the first listed user whose id
matches the order's user reference. -/
def orderOwner (users : List User) (o : Order) : Option User :=
  users.find? (fun u => u.id == o.userID)

/-- Spec view: the orders attributed to a company through its users, in
listing order. -/
def companyOrders (users : List User) (orders : List Order) (cid : Int) :
    List Order :=
  orders.filter (fun o =>
    match orderOwner users o with
    | some u => u.companyID == cid
    | none => false)

/-- Spec view: the sum of a list of orders' amounts. -/
def amountSum (l : List Order) : Rat :=
  (l.map Order.amount).sum

/-! Helper lemmas. -/

/-- A fold that either keeps its accumulator or appends one element is a
`filterMap`. -/
theorem foldl_collect {α β : Type} (f : α → Option β)
    (g : List β → α → List β)
    (hgn : ∀ acc a, f a = none → g acc a = acc)
    (hgs : ∀ acc a b, f a = some b → g acc a = acc ++ [b]) :
    ∀ (l : List α) (acc : List β), l.foldl g acc = acc ++ l.filterMap f
  | [], acc => by simp
  | a :: l, acc => by
    cases h : f a with
    | none =>
      rw [List.foldl_cons, hgn acc a h, foldl_collect f g hgn hgs l acc]
      simp [List.filterMap_cons, h]
    | some b =>
      rw [List.foldl_cons, hgs acc a b h,
        foldl_collect f g hgn hgs l (acc ++ [b])]
      simp [List.filterMap_cons, h]

theorem uwcStep_none (st : Store) (acc : List UserWithCompany) (u : User)
    (h : joinCompany st u = none) : uwcStep st acc u = acc := by
  unfold joinCompany at h
  unfold uwcStep
  cases hg : getEnt decCompany "companies" u.companyID st with
  | error e => rfl
  | ok c => simp [hg] at h

theorem uwcStep_some (st : Store) (acc : List UserWithCompany) (u : User)
    (b : UserWithCompany) (h : joinCompany st u = some b) :
    uwcStep st acc u = acc ++ [b] := by
  unfold joinCompany at h
  unfold uwcStep
  cases hg : getEnt decCompany "companies" u.companyID st with
  | error e => simp [hg] at h
  | ok c =>
    simp only [hg, Option.some.injEq] at h
    simp [h]

theorem uowpStep_none (st : Store) (userID : Int) (user : User)
    (acc : List OrderWithDetails) (o : Order)
    (h : joinUserOrder st userID user o = none) :
    uowpStep st userID user acc o = acc := by
  unfold joinUserOrder at h
  unfold uowpStep
  by_cases hid : o.userID = userID
  · rw [if_pos hid]
    rw [if_pos hid] at h
    cases hp : getEnt decProduct "products" o.productID st with
    | error e => rfl
    | ok p =>
      simp only [hp] at h ⊢
      cases hc : getEnt decCategory "categories" p.categoryID st with
      | error e => rfl
      | ok c => simp [hc] at h
  · rw [if_neg hid]

theorem uowpStep_some (st : Store) (userID : Int) (user : User)
    (acc : List OrderWithDetails) (o : Order) (b : OrderWithDetails)
    (h : joinUserOrder st userID user o = some b) :
    uowpStep st userID user acc o = acc ++ [b] := by
  unfold joinUserOrder at h
  unfold uowpStep
  by_cases hid : o.userID = userID
  · rw [if_pos hid]
    rw [if_pos hid] at h
    cases hp : getEnt decProduct "products" o.productID st with
    | error e => simp [hp] at h
    | ok p =>
      simp only [hp] at h ⊢
      cases hc : getEnt decCategory "categories" p.categoryID st with
      | error e => simp [hc] at h
      | ok c =>
        simp only [hc, Option.some.injEq] at h ⊢
        rw [h]
  · rw [if_neg hid] at h
    simp at h

theorem usersFold_aux (cid : Int) :
    ∀ (us : List User) (m : Int → List User),
      (us.foldl (fun m u =>
        fun cid => if cid = u.companyID then m cid ++ [u] else m cid) m) cid
        = m cid ++ companyUsers us cid
  | [], m => by simp [companyUsers]
  | u :: us, m => by
    rw [List.foldl_cons, usersFold_aux cid us]
    by_cases h : cid = u.companyID
    · simp [companyUsers, List.filter_cons, h]
    · have h' : ¬ u.companyID = cid := fun h2 => h (Eq.symm h2)
      simp [companyUsers, List.filter_cons, h, h']

theorem usersByCompanyFold_eq (users : List User) (cid : Int) :
    usersByCompanyFold users cid = companyUsers users cid := by
  simpa using usersFold_aux cid users (fun _ => [])

theorem ordersFold_aux (users : List User) (cid : Int) :
    ∀ (os : List Order) (m : Int → List Order),
      (os.foldl (fun m o =>
        match users.find? (fun u => u.id == o.userID) with
        | some u => fun cid => if cid = u.companyID then m cid ++ [o] else m cid
        | none => m) m) cid
        = m cid ++ companyOrders users os cid
  | [], m => by simp [companyOrders]
  | o :: os, m => by
    rw [List.foldl_cons]
    cases hf : users.find? (fun u => u.id == o.userID) with
    | none =>
      rw [ordersFold_aux users cid os]
      simp [companyOrders, List.filter_cons, orderOwner, hf]
    | some u =>
      rw [ordersFold_aux users cid os]
      by_cases h : cid = u.companyID
      · simp [companyOrders, List.filter_cons, orderOwner, hf, h]
      · have h' : ¬ u.companyID = cid := fun h2 => h (Eq.symm h2)
        simp [companyOrders, List.filter_cons, orderOwner, hf, h, h']

theorem ordersByCompanyFold_eq (users : List User) (orders : List Order)
    (cid : Int) :
    ordersByCompanyFold users orders cid = companyOrders users orders cid := by
  simpa using ordersFold_aux users cid orders (fun _ => [])

theorem revenueFold_aux :
    ∀ (l : List Order) (r : Rat),
      l.foldl (fun r o => r + o.amount) r = r + amountSum l
  | [], r => by simp [amountSum]
  | o :: l, r => by
    rw [List.foldl_cons, revenueFold_aux l]
    simp [amountSum, add_assoc]

theorem revenueFold_eq (l : List Order) : revenueFold l = amountSum l := by
  simpa [revenueFold] using revenueFold_aux l 0

/-- Orders whose product the product map does not resolve leave the
per-product accumulator untouched, so the accumulation only sees the orders
with a known product. -/
theorem accumStats_filter (pm : Int → Option Product) :
    ∀ (orders : List Order) (ps : List (Int × ProductSellStat)),
      orders.foldl (accumStep pm) ps
        = (orders.filter (fun o => (pm o.productID).isSome)).foldl
            (accumStep pm) ps
  | [], _ => rfl
  | o :: orders, ps => by
    rw [List.foldl_cons, List.filter_cons]
    cases h : pm o.productID with
    | none =>
      have hstep : accumStep pm ps o = ps := by simp [accumStep, h]
      simp [h, hstep, accumStats_filter pm orders]
    | some p =>
      simp [h, accumStats_filter pm orders (accumStep pm ps o)]

/-- Every entry placed by the grouping fold sits under its own category-name
group key. -/
theorem groupFold_mem (cm : Int → Option Category) :
    ∀ (ps : List (Int × ProductSellStat))
      (m : String → List ProductSellStat)
      (hm : ∀ g s, s ∈ m g → catNameOf cm s = g)
      (g : String) (s : ProductSellStat),
      s ∈ (ps.foldl (groupStep cm) m) g → catNameOf cm s = g
  | [], m, hm, g, s => fun h => hm g s h
  | p :: ps, m, hm, g, s => by
    intro h
    refine groupFold_mem cm ps (groupStep cm m p) ?_ g s h
    intro g' s' hs'
    unfold groupStep at hs'
    by_cases hg : g' = catNameOf cm p.2
    · rw [if_pos hg] at hs'
      rcases List.mem_append.mp hs' with hin | hone
      · exact hm g' s' hin
      · rcases List.mem_singleton.mp hone with rfl
        exact hg.symm
    · rw [if_neg hg] at hs'
      exact hm g' s' hs'

/-- `decodeAll` succeeding means every element decoded, in order. -/
theorem decodeAll_map {α : Type} (dec : Val → Option α) :
    ∀ (l : List (String × Val)) (xs : List α),
      decodeAll dec l = some xs → l.map (fun p => dec p.2) = xs.map some
  | [], xs => by
    intro h
    simp only [decodeAll, Option.some.injEq] at h
    subst h
    rfl
  | p :: l, xs => by
    intro h
    cases hd : dec p.2 with
    | none => simp [decodeAll, hd] at h
    | some a =>
      cases hrest : decodeAll dec l with
      | none => simp [decodeAll, hd, hrest] at h
      | some as =>
        simp only [decodeAll, hd, hrest, Option.some.injEq] at h
        subst h
        simp [hd, decodeAll_map dec l as hrest]

theorem listHasPfx_append :
    ∀ p t : List Char, listHasPfx p (p ++ t) = true
  | [], _ => rfl
  | a :: as, t => by simp [listHasPfx, listHasPfx_append as t]

/-- Two starts of the same character list are comparable. -/
theorem listHasPfx_comparable :
    ∀ (s p1 p2 : List Char), listHasPfx p1 s = true → listHasPfx p2 s = true →
      listHasPfx p1 p2 = true ∨ listHasPfx p2 p1 = true
  | _, [], _ => fun _ _ => Or.inl rfl
  | _, _ :: _, [] => fun _ _ => Or.inr rfl
  | [], _ :: _, _ :: _ => fun h1 _ => by simp [listHasPfx] at h1
  | c :: cs, a :: as, b :: bs => by
    intro h1 h2
    simp only [listHasPfx, Bool.and_eq_true, beq_iff_eq] at h1 h2
    rcases h1 with ⟨rfl, h1⟩
    rcases h2 with ⟨rfl, h2⟩
    rcases listHasPfx_comparable cs as bs h1 h2 with h | h
    · exact Or.inl (by simp [listHasPfx, h])
    · exact Or.inr (by simp [listHasPfx, h])

/-- Membership in the sorted scan is membership in the matching bindings. -/
theorem mem_scanPfx (entity : String) (st : Store) (p : String × Val) :
    p ∈ scanPfx entity st ↔
      p ∈ st.filter (fun p => strHasPfx (kindPfx entity) p.1) := by
  unfold scanPfx
  exact (List.perm_insertionSort keyLe _).mem_iff

/-! Concrete fixtures used by witnesses and counterexamples. -/

def exCompanyA : Company := ⟨1, "A", "tech"⟩
def exCompanyB : Company := ⟨2, "B", "fashion"⟩
def exUser1 : User := ⟨1, "u1", "u1@x", 1⟩
def exUser2 : User := ⟨2, "u2", "u2@x", 2⟩
def exUserDangling : User := ⟨2, "u2", "u2@x", 99⟩
def exOrder1 : Order := ⟨1, 1, 1, 1, 10, "completed"⟩
def exOrder2 : Order := ⟨2, 1, 1, 1, 5, "completed"⟩
def exOrder3 : Order := ⟨3, 2, 1, 1, 7, "completed"⟩
def exCategory1 : Category := ⟨1, "Electronics"⟩
def exProduct1 : Product := ⟨1, "Laptop", 999, 1, 1, "laptop"⟩
def exProduct2 : Product := ⟨2, "Gadget", 19, 99, 1, "no such category"⟩

/-- Fixture for the aggregate example: companies A and B, one user each,
three orders with amounts 10, 5 (user 1) and 7 (user 2). -/
def exStore4 : Store :=
  create "orders" 3 (.order exOrder3) <|
  create "orders" 2 (.order exOrder2) <|
  create "orders" 1 (.order exOrder1) <|
  create "users" 2 (.user exUser2) <|
  create "users" 1 (.user exUser1) <|
  create "companies" 2 (.company exCompanyB) <|
  create "companies" 1 (.company exCompanyA) []

/-- Fixture for the tolerant join: user 1's company exists, user 2
references the absent company 99. -/
def exStore3 : Store :=
  create "users" 2 (.user exUserDangling) <|
  create "users" 1 (.user exUser1) <|
  create "companies" 1 (.company exCompanyA) []

/-- Fixture for the filtered join: user 1 with one resolvable order and one
order of the absent user 2. -/
def exStore9 : Store :=
  create "orders" 3 (.order exOrder3) <|
  create "orders" 1 (.order exOrder1) <|
  create "products" 1 (.product exProduct1) <|
  create "categories" 1 (.category exCategory1) <|
  create "users" 1 (.user exUser1) []

def exOrder5a : Order := ⟨1, 1, 1, 1, 5, "completed"⟩
def exOrder5b : Order := ⟨2, 1, 1, 1, 10, "completed"⟩
def exOrder5c : Order := ⟨3, 1, 2, 1, 7, "completed"⟩
def exOrder5d : Order := ⟨4, 1, 42, 1, 3, "completed"⟩
def exOrders5 : List Order := [exOrder5a, exOrder5b, exOrder5c, exOrder5d]

/-- Fixture for the grouped ranking: orders 1 and 2 hit product 1 (known
category), order 3 hits product 2 (unresolvable category 99), and order 4
references the absent product 42. -/
def exStore5 : Store :=
  create "orders" 4 (.order exOrder5d) <|
  create "orders" 3 (.order exOrder5c) <|
  create "orders" 2 (.order exOrder5b) <|
  create "orders" 1 (.order exOrder5a) <|
  create "products" 2 (.product exProduct2) <|
  create "products" 1 (.product exProduct1) <|
  create "categories" 1 (.category exCategory1) []

def cexUser2 : User := ⟨2, "two", "two@x", 1⟩
def cexUser10 : User := ⟨10, "ten", "ten@x", 1⟩

/-- Fixture for key ordering: user records with identifiers 2 and 10, whose
keys `"users:10" < "users:2"` sort lexicographically, not numerically. -/
def cexStore6 : Store :=
  create "users" 10 (.user cexUser10) <|
  create "users" 2 (.user cexUser2) []

/-! Claim theorems. -/

/-- Claim C7 (counterexample): the claim says a persistence failure during
allocation "is reported to the caller".  It is not: `getNextID` discards
the update transaction's error (main.go line 134, the `db.Update` result is
dropped) and its only caller-visible output is the allocated integer.  At
the fresh store, an allocation whose persist fails returns exactly the
value a successful one returns (1), updates the in-memory counter, and
leaves nothing persisted — the caller cannot observe the failure. -/
theorem alloc_persist_failure_unreported_cex :
    (getNextID true (newService []) "users").1
      = (getNextID false (newService []) "users").1
    ∧ (getNextID true (newService []) "users").1 = 1
    ∧ (getNextID true (newService []) "users").2.counters "users" = 1
    ∧ (getNextID true (newService []) "users").2.db = [] := by
  refine ⟨rfl, ?_, ?_, rfl⟩ <;> decide

/-- Claim C7 (amended): if persisting the incremented counter fails during
an allocation, the failure is NOT reported to the caller — the allocation
returns the incremented value exactly as on success — while the in-memory
counter retains its incremented value (it is not rolled back) and the store
is left unchanged. -/
theorem alloc_persist_failure_thm (s : SvcState) (entity : String) :
    (getNextID true s entity).1 = s.counters entity + 1
    ∧ (getNextID true s entity).1 = (getNextID false s entity).1
    ∧ (getNextID true s entity).2.counters
        = (getNextID false s entity).2.counters
    ∧ (getNextID true s entity).2.counters entity = s.counters entity + 1
    ∧ (getNextID true s entity).2.db = s.db := by
  refine ⟨rfl, rfl, rfl, ?_, rfl⟩
  simp [getNextID]

/-- Claim C8: none of the five join/aggregation operations mutates the
persisted store: each returns the store exactly as it received it (all of
them are compositions of read-only `get`/`list` transactions). -/
theorem joins_frame (st : Store) (userID : Int) :
    (GetUsersWithCompanies st).2 = st
    ∧ (GetOrdersWithDetails st).2 = st
    ∧ (GetCompanyStats st).2 = st
    ∧ (GetUserOrdersWithProducts userID st).2 = st
    ∧ (GetTopSellingProductsByCategory st).2 = st := by
  refine ⟨?_, ?_, ?_, ?_, ?_⟩
  · unfold GetUsersWithCompanies
    cases listEnt decUser "users" st <;> rfl
  · unfold GetOrdersWithDetails
    cases listEnt decOrder "orders" st <;> rfl
  · unfold GetCompanyStats
    cases listEnt decCompany "companies" st <;> try rfl
    cases listEnt decUser "users" st <;> try rfl
    cases listEnt decOrder "orders" st <;> rfl
  · unfold GetUserOrdersWithProducts
    cases listEnt decOrder "orders" st <;> try rfl
    cases getEnt decUser "users" userID st <;> rfl
  · unfold GetTopSellingProductsByCategory
    cases listEnt decOrder "orders" st <;> try rfl
    cases listEnt decProduct "products" st <;> try rfl
    cases listEnt decCategory "categories" st <;> rfl

/-- Claim C2: `GetUserOrdersWithProducts` for a `userID` with no stored user
record fails the whole operation with `NotFound` (the Go code wraps the
lookup error and returns a nil slice): provided the initial orders listing
succeeds, the result is the `notFound` error and hence carries no rows. -/
theorem userOrders_missing_user_notFound (st : Store) (userID : Int)
    (os : List Order) (ho : listEnt decOrder "orders" st = .ok os)
    (hu : storeGet st (entityKey "users" userID) = none) :
    (GetUserOrdersWithProducts userID st).1 = .error .notFound := by
  simp only [GetUserOrdersWithProducts, ho, getEnt, hu]

theorem userOrders_missing_user_notFound_witness :
    listEnt decOrder "orders" ([] : Store) = .ok []
    ∧ storeGet ([] : Store) (entityKey "users" 1) = none
    ∧ (GetUserOrdersWithProducts 1 ([] : Store)).1 = .error .notFound :=
  ⟨rfl, rfl, userOrders_missing_user_notFound [] 1 [] rfl rfl⟩

/-- Claim C3: `GetUsersWithCompanies` is exactly the order-preserving
`filterMap` of the company join over the listed users: a user whose company
lookup fails is omitted, every user whose lookup succeeds appears paired
with that company, and the User listing order is preserved. -/
theorem usersWithCompanies_thm (st : Store) (us : List User)
    (h : listEnt decUser "users" st = .ok us) :
    (GetUsersWithCompanies st).1 = .ok (us.filterMap (joinCompany st)) := by
  simp only [GetUsersWithCompanies, h]
  rw [foldl_collect (joinCompany st) (uwcStep st) (uwcStep_none st)
    (uwcStep_some st) us []]
  simp

theorem usersWithCompanies_witness :
    listEnt decUser "users" exStore3 = .ok [exUser1, exUserDangling]
    ∧ (GetUsersWithCompanies exStore3).1
        = .ok ([exUser1, exUserDangling].filterMap (joinCompany exStore3))
    ∧ [exUser1, exUserDangling].filterMap (joinCompany exStore3)
        = [⟨exUser1, exCompanyA⟩] :=
  ⟨rfl, usersWithCompanies_thm exStore3 [exUser1, exUserDangling] rfl, rfl⟩

/-- Claim C9: every row of a successful `GetUserOrdersWithProducts userID`
call carries an order whose user reference is exactly `userID`, and the
single resolved user record as its user field — orders of other users never
appear. -/
theorem userOrders_rows_thm (st : Store) (userID : Int) (user : User)
    (rows : List OrderWithDetails)
    (hu : getEnt decUser "users" userID st = .ok user)
    (hr : (GetUserOrdersWithProducts userID st).1 = .ok rows) :
    ∀ r ∈ rows, r.order.userID = userID ∧ r.user = user := by
  unfold GetUserOrdersWithProducts at hr
  cases hl : listEnt decOrder "orders" st with
  | error e =>
    rw [hl] at hr
    simp at hr
  | ok orders =>
    rw [hl, hu] at hr
    simp only at hr
    rw [foldl_collect (joinUserOrder st userID user) (uowpStep st userID user)
      (uowpStep_none st userID user) (uowpStep_some st userID user)
      orders []] at hr
    simp only [List.nil_append, Except.ok.injEq] at hr
    subst hr
    intro r hrmem
    obtain ⟨o, _, hjoin⟩ := List.mem_filterMap.mp hrmem
    unfold joinUserOrder at hjoin
    by_cases hid : o.userID = userID
    · rw [if_pos hid] at hjoin
      cases hp : getEnt decProduct "products" o.productID st with
      | error e =>
        simp [hp] at hjoin
      | ok p =>
        simp only [hp] at hjoin
        cases hc : getEnt decCategory "categories" p.categoryID st with
        | error e =>
          simp [hc] at hjoin
        | ok c =>
          simp only [hc, Option.some.injEq] at hjoin
          subst hjoin
          exact ⟨hid, rfl⟩
    · rw [if_neg hid] at hjoin
      simp at hjoin

theorem userOrders_rows_witness :
    getEnt decUser "users" 1 exStore9 = .ok exUser1
    ∧ (GetUserOrdersWithProducts 1 exStore9).1
        = .ok [⟨exOrder1, exUser1, exProduct1, exCategory1⟩]
    ∧ ∀ r ∈ [(⟨exOrder1, exUser1, exProduct1, exCategory1⟩ : OrderWithDetails)],
        r.order.userID = 1 ∧ r.user = exUser1 :=
  ⟨rfl, rfl,
   userOrders_rows_thm exStore9 1 exUser1
     [⟨exOrder1, exUser1, exProduct1, exCategory1⟩] rfl rfl⟩

/-- Claim C6 (counterexample): `list` does NOT return records in ascending
identifier order once identifiers differ in digit count: with users 2 and
10 stored, the key `"users:10"` sorts lexicographically before `"users:2"`,
so the listing is `[user 10, user 2]` — not ascending by identifier. -/
theorem list_not_id_sorted_cex :
    listEnt decUser "users" cexStore6 = .ok [cexUser10, cexUser2]
    ∧ ¬ List.Sorted (· ≤ ·) ([cexUser10, cexUser2].map User.id) := by
  exact ⟨rfl, by decide⟩

/-- Claim C6 (amended): `list` returns the decoded records in ascending
LEXICOGRAPHIC order of their keys (the order Badger iterates raw keys in),
which coincides with numeric identifier order only while identifiers have
equal digit counts: the scan is sorted under `keyLe` and the returned
records are its values decoded in that order. -/
theorem list_scan_lex_sorted {α : Type} (entity : String) (st : Store)
    (dec : Val → Option α) (xs : List α)
    (h : listEnt dec entity st = .ok xs) :
    (scanPfx entity st).Sorted keyLe
    ∧ (scanPfx entity st).map (fun p => dec p.2) = xs.map some := by
  constructor
  · exact List.sorted_insertionSort keyLe _
  · unfold listEnt at h
    cases hd : decodeAll dec (scanPfx entity st) with
    | none =>
      rw [hd] at h
      simp at h
    | some ys =>
      rw [hd] at h
      simp only [Except.ok.injEq] at h
      subst h
      exact decodeAll_map dec _ _ hd

theorem list_scan_lex_sorted_witness :
    listEnt decUser "users" cexStore6 = .ok [cexUser10, cexUser2]
    ∧ ((scanPfx "users" cexStore6).Sorted keyLe
       ∧ (scanPfx "users" cexStore6).map (fun p => decUser p.2)
           = [cexUser10, cexUser2].map some) :=
  ⟨rfl, list_scan_lex_sorted "users" cexStore6 decUser [cexUser10, cexUser2] rfl⟩

theorem initCounters_nil (e : String) : initCounters [] e = 0 := by
  unfold initCounters
  split <;> rfl

theorem runAllocs_eq (entity : String) :
    ∀ (muts : List (Store → Store)) (s : SvcState),
      runAllocs entity muts s
        = (List.range muts.length).map
            (fun i : Nat => s.counters entity + 1 + (i : Int))
  | [], _ => by simp [runAllocs]
  | m :: ms, s => by
    simp only [runAllocs]
    rw [runAllocs_eq entity ms]
    simp only [getNextID, if_pos rfl]
    rw [List.length_cons, List.range_succ_eq_map, List.map_cons, List.map_map]
    congr 1
    · simp
    · refine List.map_congr_left ?_
      intro i _
      simp only [Function.comp_apply, Nat.succ_eq_add_one]
      push_cast
      ring

/-- Claim C1: starting from a fresh store (no persisted counter, so the
counter seeds to 0), N sequential `getNextID` calls for one entity kind
return exactly 1, 2, ..., N — strictly increasing, with no value repeated —
regardless of any interleaved mutations of the persisted entity records
(which covers records being created or deleted between allocations: the
allocator never reuses an identifier after a delete, since it reads only its
counter). -/
theorem alloc_fresh_sequence (entity : String)
    (muts : List (Store → Store)) :
    runAllocs entity muts (newService [])
      = (List.range muts.length).map (fun i : Nat => (i : Int) + 1)
    ∧ (runAllocs entity muts (newService [])).Pairwise (· < ·)
    ∧ (runAllocs entity muts (newService [])).Nodup := by
  have h1 : runAllocs entity muts (newService [])
      = (List.range muts.length).map (fun i : Nat => (i : Int) + 1) := by
    rw [runAllocs_eq entity muts (newService [])]
    refine List.map_congr_left ?_
    intro i _
    have h0 : (newService []).counters entity = 0 := initCounters_nil entity
    rw [h0]
    ring
  have hpw : ((List.range muts.length).map
      (fun i : Nat => (i : Int) + 1)).Pairwise (· < ·) := by
    refine List.Pairwise.map _ ?_ (List.pairwise_lt_range muts.length)
    intro a b hab
    have : (a : Int) < (b : Int) := by exact_mod_cast hab
    omega
  refine ⟨h1, ?_, ?_⟩
  · rw [h1]
    exact hpw
  · rw [h1]
    exact hpw.imp (fun h => ne_of_lt h)

theorem counterKey_not_scanned_aux :
    ∀ kind ∈ entities, ∀ l : List Char,
      listHasPfx (kindPfx kind).data ("counter:".data ++ l) = false := by
  intro kind hk l
  cases h : listHasPfx (kindPfx kind).data ("counter:".data ++ l) with
  | false => rfl
  | true =>
    exfalso
    have h2 : listHasPfx "counter:".data ("counter:".data ++ l) = true :=
      listHasPfx_append _ _
    have hcmp := listHasPfx_comparable ("counter:".data ++ l) _ _ h h2
    simp only [entities, List.mem_cons, List.not_mem_nil, or_false] at hk
    rcases hk with rfl | rfl | rfl | rfl | rfl <;> revert hcmp <;> decide

/-- Claim C10: counter records are invisible at the entity interface for
every entity kind: no pair visited by `list`'s scan for an entity kind can
carry a counter key (nothing with the kind's scan boundary is a counter
key), and the key `get`/`create` derive for an entity record is never a
counter key — for any store contents, hence for any sequence of creates and
allocations. -/
theorem counter_keys_invisible : ∀ kind ∈ entities,
    (∀ (e : String) (st : Store) (p : String × Val),
      p ∈ scanPfx kind st → p.1 ≠ counterKey e)
    ∧ (∀ (e : String) (id : Int), entityKey kind id ≠ counterKey e) := by
  intro kind hk
  have hdata : ∀ e : String, (counterKey e).data = "counter:".data ++ e.data :=
    fun e => String.data_append "counter:" e
  constructor
  · intro e st p hp heq
    have hf := (mem_scanPfx kind st p).mp hp
    have hpfx : strHasPfx (kindPfx kind) p.1 = true := (List.mem_filter.mp hf).2
    rw [heq] at hpfx
    unfold strHasPfx at hpfx
    rw [hdata e, counterKey_not_scanned_aux kind hk e.data] at hpfx
    cases hpfx
  · intro e id heq
    have hs : (entityKey kind id).data
        = (kindPfx kind).data ++ (toString id).data :=
      String.data_append (kindPfx kind) (toString id)
    have h1 : listHasPfx (kindPfx kind).data (entityKey kind id).data
        = true := by
      rw [hs]
      exact listHasPfx_append _ _
    rw [heq, hdata e, counterKey_not_scanned_aux kind hk e.data] at h1
    cases h1

theorem counter_keys_invisible_witness :
    "users" ∈ entities
    ∧ ((∀ (e : String) (st : Store) (p : String × Val),
         p ∈ scanPfx "users" st → p.1 ≠ counterKey e)
       ∧ (∀ (e : String) (id : Int), entityKey "users" id ≠ counterKey e)) :=
  ⟨by decide, counter_keys_invisible "users" (by decide)⟩

/-- Claim C4: `GetCompanyStats` emits one row per listed company carrying
the count of users referencing it, the count of orders attributed to it
through its users (each order goes to the company of the first listed user
with the order's user id), and the sum of those orders' amounts.  A company
with no users and no orders still appears: its filters are empty, so the
counts are 0 and the revenue sum is 0.  The claim's worked example is
checked in the witness. -/
theorem companyStats_thm (st : Store) (cs : List Company) (us : List User)
    (os : List Order)
    (hc : listEnt decCompany "companies" st = .ok cs)
    (hu : listEnt decUser "users" st = .ok us)
    (ho : listEnt decOrder "orders" st = .ok os) :
    (GetCompanyStats st).1 = .ok (cs.map (fun c =>
      { company := c
        userCount := (companyUsers us c.id).length
        orderCount := (companyOrders us os c.id).length
        totalRevenue := amountSum (companyOrders us os c.id) })) := by
  simp only [GetCompanyStats, hc, hu, ho]
  have hmap : ∀ c ∈ cs,
      (CompanyStats.mk c (usersByCompanyFold us c.id).length
        (ordersByCompanyFold us os c.id).length
        (revenueFold (ordersByCompanyFold us os c.id)))
      = CompanyStats.mk c (companyUsers us c.id).length
          (companyOrders us os c.id).length
          (amountSum (companyOrders us os c.id)) := by
    intro c _
    rw [usersByCompanyFold_eq, ordersByCompanyFold_eq, revenueFold_eq]
  rw [List.map_congr_left hmap]

theorem companyStats_witness :
    listEnt decCompany "companies" exStore4 = .ok [exCompanyA, exCompanyB]
    ∧ listEnt decUser "users" exStore4 = .ok [exUser1, exUser2]
    ∧ listEnt decOrder "orders" exStore4 = .ok [exOrder1, exOrder2, exOrder3]
    ∧ (GetCompanyStats exStore4).1
        = .ok [⟨exCompanyA, 1, 2, 15⟩, ⟨exCompanyB, 1, 1, 7⟩] := by
  refine ⟨rfl, rfl, rfl, ?_⟩
  rw [companyStats_thm exStore4 [exCompanyA, exCompanyB] [exUser1, exUser2]
    [exOrder1, exOrder2, exOrder3] rfl rfl rfl]
  simp +decide only [companyUsers, companyOrders, orderOwner, amountSum,
    exCompanyA, exCompanyB, exUser1, exUser2, exOrder1, exOrder2, exOrder3,
    List.filter, List.find?, List.map, List.length, List.sum_cons,
    List.sum_nil, List.map_cons, List.map_nil]
  norm_num

/-- The specified result of the grouped ranking: per-product stats
accumulated over the orders with a known product, grouped under the
category name (empty string when unresolvable), each group sorted by
descending revenue. -/
def specTop (products : List Product) (categories : List Category)
    (orders : List Order) : String → List ProductSellStat :=
  fun g => List.insertionSort revGe
    (groupStats (lookupFold Category.id categories)
      (accumStats (lookupFold Product.id products) orders) g)

/-- Claim C5: `GetTopSellingProductsByCategory` (i) returns exactly the
grouped, per-group-sorted accumulation `specTop`; (ii) orders referencing a
product absent from the product map contribute to no group — the
accumulation equals the accumulation over only the orders with a known
product; (iii) every entry of a group carries that group's key: its
category's name, or the empty string when its category id is unresolvable;
and (iv) every group is sorted by descending total revenue. -/
theorem topSelling_thm (st : Store) (os : List Order) (pros : List Product)
    (cats : List Category)
    (ho : listEnt decOrder "orders" st = .ok os)
    (hp : listEnt decProduct "products" st = .ok pros)
    (hct : listEnt decCategory "categories" st = .ok cats) :
    (GetTopSellingProductsByCategory st).1 = .ok (specTop pros cats os)
    ∧ accumStats (lookupFold Product.id pros) os
        = accumStats (lookupFold Product.id pros)
            (os.filter (fun o =>
              ((lookupFold Product.id pros) o.productID).isSome))
    ∧ (∀ (g : String) (s : ProductSellStat), s ∈ specTop pros cats os g →
        catNameOf (lookupFold Category.id cats) s = g)
    ∧ (∀ g : String, (specTop pros cats os g).Sorted revGe) := by
  refine ⟨?_, ?_, ?_, ?_⟩
  · simp only [GetTopSellingProductsByCategory, ho, hp, hct]
    rfl
  · unfold accumStats
    exact accumStats_filter (lookupFold Product.id pros) os []
  · intro g s hs
    unfold specTop at hs
    have hg := (List.perm_insertionSort revGe _).mem_iff.mp hs
    unfold groupStats at hg
    refine groupFold_mem (lookupFold Category.id cats) _ (fun _ => [])
      ?_ g s hg
    intro g' s' h'
    simp at h'
  · intro g
    exact List.sorted_insertionSort revGe _

theorem topSelling_witness :
    listEnt decOrder "orders" exStore5 = .ok exOrders5
    ∧ listEnt decProduct "products" exStore5 = .ok [exProduct1, exProduct2]
    ∧ listEnt decCategory "categories" exStore5 = .ok [exCategory1]
    ∧ ((GetTopSellingProductsByCategory exStore5).1
          = .ok (specTop [exProduct1, exProduct2] [exCategory1] exOrders5)
        ∧ accumStats (lookupFold Product.id [exProduct1, exProduct2]) exOrders5
            = accumStats (lookupFold Product.id [exProduct1, exProduct2])
                (exOrders5.filter (fun o =>
                  ((lookupFold Product.id [exProduct1, exProduct2])
                    o.productID).isSome))
        ∧ (∀ (g : String) (s : ProductSellStat),
            s ∈ specTop [exProduct1, exProduct2] [exCategory1] exOrders5 g →
            catNameOf (lookupFold Category.id [exCategory1]) s = g)
        ∧ (∀ g : String,
            (specTop [exProduct1, exProduct2] [exCategory1]
              exOrders5 g).Sorted revGe)) :=
  ⟨rfl, rfl, rfl,
   topSelling_thm exStore5 exOrders5 [exProduct1, exProduct2] [exCategory1]
     rfl rfl rfl⟩

end BadgerEx
